import Mathlib

/-!
Verification development for the CRL reconciliation-and-resigning engine
(`builtin/logical/pki/path_resign_crls.go`).

The Go source is shallowly embedded: pure helpers become Lean functions,
machine integers and `*big.Int` become `Int`, `time.Time` becomes `Int`
(instants on a linear clock, `Equal` = `=`, `After` = `>`), byte slices
become `List Nat`, and Go's `map[string]pkix.RevokedCertificate` becomes an
insertion-ordered association list with Go-map lookup/store semantics.
External collaborators (Go standard-library crypto/PEM/ASN.1 routines,
storage-backed issuer resolution, the clock) are supplied as explicit
function parameters in an `Env` record, so the handler stays a pure,
executable function of its inputs.
-/

set_option autoImplicit false

namespace ResignCrls

/-- `pkix.Extension`: an ASN.1 object identifier, a criticality flag and an
opaque DER value. -/
structure Extension where
  oid : List Nat
  critical : Bool
  value : List Nat
deriving DecidableEq

/-- `pkix.RevokedCertificate`: serial number (`*big.Int` → `Int`),
revocation time (`time.Time` → `Int`), per-entry extensions. -/
structure RevokedCertificate where
  serialNumber : Int
  revocationTime : Int
  extensions : List Extension
deriving DecidableEq

/-- `x509.RevocationList`, restricted to the fields this file reads or
writes: the revoked entries, and the template fields set by the handler
(`SignatureAlgorithm`, `Number`, `ThisUpdate`, `NextUpdate`,
`ExtraExtensions`).  The same Go type serves both as a parsed input CRL and
as the template handed to `x509.CreateRevocationList`. -/
structure RevocationList where
  revokedCertificates : List RevokedCertificate
  signatureAlgorithm : Int := 0
  number : Int := 0
  thisUpdate : Int := 0
  nextUpdate : Int := 0
  extraExtensions : List Extension := []
deriving DecidableEq

/-- An issuer certificate, abstract: the handler only threads it into the
environment's cryptographic operations. -/
structure Certificate where
  certId : Nat
deriving DecidableEq

/-- `certutil.CAInfoBundle`, restricted to the fields the handler reads:
the issuer certificate and the declared revocation signature algorithm
(the private key is folded into the environment's signing function). -/
structure CAInfoBundle where
  certificate : Certificate
  revocationSigAlg : Int
deriving DecidableEq

/-- `pem.Block` (the `Headers` field is never read by this code and is
omitted). -/
structure PemBlock where
  blockType : String
  bytes : List Nat
deriving DecidableEq

/-- Result of a Go call that may return a value, return an error, or panic
(a nil-pointer dereference is modelled as `panicked`). -/
inductive GoResult (α : Type) where
  | ok (a : α)
  | err (msg : String)
  | panicked
deriving DecidableEq

/-! ### Request parameter names (the `const` block of the Go file) -/

def crlNumberParam : String := "crl_number"

def deltaCrlBaseNumberParam : String := "delta_crl_base_number"

def nextUpdateParam : String := "next_update"

def crlsParam : String := "crls"

def formatParam : String := "format"

def issuerRefParam : String := "issuer_ref"

/-! ### Error and warning message text (the `fmt.Errorf` / `fmt.Sprintf`
format strings of the Go file, applied to their arguments) -/

def migrationErrMsg : String := "This API cannot be used until the migration has completed"

def unknownFormatMsg (requestedValue : String) : String :=
  s!"unknown format value of {requestedValue}"

def invalidNextUpdateMsg (e : String) : String :=
  s!"invalid value for {nextUpdateParam}: {e}"

def nextUpdatePositiveMsg : String :=
  s!"{nextUpdateParam} parameter must be greater than 0"

def crlNumberNonNegMsg : String :=
  s!"{crlNumberParam} parameter must be 0 or greater"

def deltaCrlBaseNumberMsg : String :=
  s!"{deltaCrlBaseNumberParam} parameter must be -1 or greater"

def issuerRefBlankMsg : String :=
  s!"{issuerRefParam} parameter cannot be blank"

def onePemBlockMsg : String := "invalid crl; should be one PEM block only"

def decodeCrlErrMsg (i : Nat) (e : String) : String :=
  s!"failed decoding crl {i}: {e}"

def verifyErrMsg (i : Nat) : String :=
  s!"CRL index: {i} was not signed by requested issuer"

def duplicateWarning (serial : String) : String :=
  s!"Duplicate serial {serial} with different revocation times detected, using oldest revocation time"

def deltaExtErrMsg (e : String) : String :=
  s!"could not create crl delta indicator extension: {e}"

def createCrlErrMsg (e : String) : String :=
  s!"error creating new CRL: {e}"

/-! ### The unique-serial map

Go's `map[string]pkix.RevokedCertificate` is embedded as an association
list.  `lookupSerial` is map indexing; `setSerial` is map assignment
(replace the entry for an existing key, otherwise add the new key).  The
list order records insertion order; Go iterates a map in an unspecified
order, so claims about the emitted collection are read as claims about the
underlying key → entry mapping. -/

def lookupSerial (k : String) : List (String × RevokedCertificate) → Option RevokedCertificate
  | [] => none
  | kv :: rest => if kv.1 = k then some kv.2 else lookupSerial k rest

def setSerial (k : String) (v : RevokedCertificate) :
    List (String × RevokedCertificate) → List (String × RevokedCertificate)
  | [] => [(k, v)]
  | kv :: rest => if kv.1 = k then (k, v) :: rest else kv :: setSerial k v rest

/-- Modelled from the spec: `serialFromBigInt` is defined elsewhere in the
repository (only its call site is in the sampled sources).  The spec
describes the reconciler as keying each entry by "the canonical
decimal-string form of its serial number", so the model is decimal
rendering of the integer. -/
def serialFromBigInt (serial : Int) : String := toString serial

/-- The Go loop body clears `curCert.Extensions` before any store:
`curCert.Extensions = []pkix.Extension{}`. -/
def clearExtensions (c : RevokedCertificate) : RevokedCertificate :=
  { c with extensions := [] }

/-- Accumulator of `getAllRevokedCerts`: the `uniqueCert` map and the
`warnings` slice. -/
structure MergeState where
  uniqueCert : List (String × RevokedCertificate)
  warnings : List String
deriving DecidableEq

/-- One iteration of the inner loop of `getAllRevokedCerts` (lines
205–229): key the entry by its canonical serial string, drop its
extensions, then either seed the map, silently skip an equal-time
duplicate, or warn and keep the earlier-time entry. -/
def mergeRevokedCert (st : MergeState) (curCert : RevokedCertificate) : MergeState :=
  let serial := serialFromBigInt curCert.serialNumber
  let cur := clearExtensions curCert
  match lookupSerial serial st.uniqueCert with
  | none =>
      { st with uniqueCert := setSerial serial cur st.uniqueCert }
  | some existingCert =>
      if existingCert.revocationTime = cur.revocationTime then
        st
      else
        let st := { st with warnings := st.warnings ++ [duplicateWarning serial] }
        if existingCert.revocationTime > cur.revocationTime then
          { st with uniqueCert := setSerial serial cur st.uniqueCert }
        else
          st

/-- The inner `for _, curCert := range crl.RevokedCertificates` loop. -/
def mergeCrl (st : MergeState) (crl : RevocationList) : MergeState :=
  crl.revokedCertificates.foldl mergeRevokedCert st

/-- The outer `for _, crl := range crls` loop, started from the empty map
and empty warning slice. -/
def mergeCrls (crls : List RevocationList) : MergeState :=
  crls.foldl mergeCrl { uniqueCert := [], warnings := [] }

/-- `getAllRevokedCerts` (lines 201–238): run the merge loops, then emit
the map's entries and the accumulated warnings.  The Go function's error
return is always nil, so it is omitted.  Entries are emitted here in
insertion order — one of the orders a Go map range may produce. -/
def getAllRevokedCerts (crls : List RevocationList) :
    List RevokedCertificate × List String :=
  let st := mergeCrls crls
  (st.uniqueCert.map (fun kv => kv.2), st.warnings)

/-! ### External collaborators

The Go code calls into the standard library (`encoding/pem`,
`crypto/x509`, `time.ParseDuration`), the Vault SDK
(`certutil.CreateDeltaCRLIndicatorExt`) and storage-backed issuer
resolution (`getCaBundle`).  None of those bodies are in the sampled
sources; they enter the embedding as explicit function parameters, so that
the handler's control flow — the code under verification — is exact while
the collaborators stay abstract. -/

structure Env where
  /-- `b.useLegacyBundleCaStorage()`: backend migration state. -/
  useLegacyBundleCaStorage : Bool
  /-- `time.ParseDuration`: duration string to a (signed) duration. -/
  parseDuration : String → Except String Int
  /-- `pem.Decode`: the found block (if any) and the remaining bytes.  Its
  documented contract: if no PEM data is found, the block is `none` and
  the whole input is returned as the rest. -/
  pemDecode : String → Option PemBlock × String
  /-- `x509.ParseRevocationList` on a block's payload bytes. -/
  parseRevocationList : List Nat → Except String RevocationList
  /-- `getCaBundle` (issuer resolution + `fetchCAInfoByIssuerId`, which go
  through storage): issuer reference to CA bundle. -/
  getCaBundle : String → Except String CAInfoBundle
  /-- `crl.CheckSignatureFrom(caCert)`: `true` iff the check returns a nil
  error. -/
  checkSignatureFrom : Certificate → RevocationList → Bool
  /-- `certutil.CreateDeltaCRLIndicatorExt`. -/
  createDeltaCRLIndicatorExt : Int → Except String Extension
  /-- `x509.CreateRevocationList(rand, template, cert, key)`: the signed
  DER bytes of the new CRL (randomness and the private key are folded into
  the function). -/
  createRevocationList : RevocationList → CAInfoBundle → Except String (List Nat)
  /-- `time.Now()`. -/
  now : Int

/-- `decodePemCrl` (lines 262–269).  Go checks `len(rest) != 0` first; when
the rest is empty but no block was found (which `pem.Decode`'s contract
makes happen exactly on empty input), the Go code dereferences
`block.Bytes` on a nil `*pem.Block` — a panic, modelled as `.panicked`. -/
def decodePemCrl (env : Env) (crl : String) : GoResult RevocationList :=
  let br := env.pemDecode crl
  if br.2.length ≠ 0 then
    .err onePemBlockMsg
  else
    match br.1 with
    | none => .panicked
    | some block =>
        match env.parseRevocationList block.bytes with
        | .ok r => .ok r
        | .error e => .err e

/-- The indexed loop of `decodePemCrls`: the first failure aborts, wrapped
with the failing index; a panic propagates. -/
def decodePemCrlsFrom (env : Env) (i : Nat) : List String → GoResult (List RevocationList)
  | [] => .ok []
  | rawCrl :: rest =>
      match decodePemCrl env rawCrl with
      | .panicked => .panicked
      | .err e => .err (decodeCrlErrMsg i e)
      | .ok crl =>
          match decodePemCrlsFrom env (i + 1) rest with
          | .ok crls => .ok (crl :: crls)
          | .err e => .err e
          | .panicked => .panicked

/-- `decodePemCrls` (lines 249–260). -/
def decodePemCrls (env : Env) (rawCrls : List String) : GoResult (List RevocationList) :=
  decodePemCrlsFrom env 0 rawCrls

/-- The indexed loop of `verifyCrlsAreFromIssuersKey`. -/
def verifyCrlsFrom (check : Certificate → RevocationList → Bool) (caCert : Certificate)
    (i : Nat) : List RevocationList → Except String Unit
  | [] => .ok ()
  | crl :: rest =>
      if check caCert crl then
        verifyCrlsFrom check caCert (i + 1) rest
      else
        .error (verifyErrMsg i)

/-- `verifyCrlsAreFromIssuersKey` (lines 167–177): all-or-nothing check of
every CRL's signature against the issuer certificate, aborting at the
first failing index. -/
def verifyCrlsAreFromIssuersKey (check : Certificate → RevocationList → Bool)
    (caCert : Certificate) (crls : List RevocationList) : Except String Unit :=
  verifyCrlsFrom check caCert 0 crls

/-- Modelled from the Go standard library's `unicode.ToLower`, restricted
to the ASCII range (the only case mapping the format tokens "pem"/"der"
can exercise). -/
def charToLower (c : Char) : Char :=
  if 'A' ≤ c ∧ c ≤ 'Z' then Char.ofNat (c.toNat + 32) else c

/-- Modelled from the Go standard library: `strings.ToLower` maps the case
conversion over the characters of the string. -/
def stringToLower (s : String) : String :=
  ⟨s.toList.map charToLower⟩

/-- `getCrlFormat` (lines 191–199): lower-case the requested value, accept
exactly "pem" and "der". -/
def getCrlFormat (requestedValue : String) : Except String String :=
  let format := stringToLower requestedValue
  if format = "pem" ∨ format = "der" then
    .ok format
  else
    .error (unknownFormatMsg requestedValue)

/-! ### Response encoding

`base64.StdEncoding.EncodeToString` and `pem.EncodeToMemory` are standard
library routines, embedded here from their documented behaviour: standard
base64 alphabet with `=` padding; PEM output is a BEGIN line, the base64
payload wrapped at 64 characters per newline-terminated line, and an END
line. -/

def base64Alphabet : List Char :=
  "ABCDEFGHIJKLMNOPQRSTUVWXYZabcdefghijklmnopqrstuvwxyz0123456789+/".toList

def b64Char (n : Nat) : Char := base64Alphabet.getD n 'A'

def base64Encode : List Nat → List Char
  | [] => []
  | [b1] =>
      [b64Char (b1 / 4), b64Char (b1 % 4 * 16), '=', '=']
  | [b1, b2] =>
      [b64Char (b1 / 4), b64Char (b1 % 4 * 16 + b2 / 16), b64Char (b2 % 16 * 4), '=']
  | b1 :: b2 :: b3 :: rest =>
      b64Char (b1 / 4) :: b64Char (b1 % 4 * 16 + b2 / 16) ::
        b64Char (b2 % 16 * 4 + b3 / 64) :: b64Char (b3 % 64) :: base64Encode rest

def b64Index (c : Char) : Nat :=
  (base64Alphabet.indexOf c)

def base64Decode : List Char → List Nat
  | c1 :: c2 :: c3 :: c4 :: rest =>
      if c3 = '=' then
        [b64Index c1 * 4 + b64Index c2 / 16]
      else if c4 = '=' then
        [b64Index c1 * 4 + b64Index c2 / 16, b64Index c2 % 16 * 16 + b64Index c3 / 4]
      else
        (b64Index c1 * 4 + b64Index c2 / 16) ::
          (b64Index c2 % 16 * 16 + b64Index c3 / 4) ::
          (b64Index c3 % 4 * 64 + b64Index c4) :: base64Decode rest
  | _ => []

/-- Helper for `pemLines`: accumulate the current (reversed) line until it
reaches 64 characters. -/
def pemLinesAux : List Char → List Char → List (List Char)
  | [], line => if line.isEmpty then [] else [line.reverse]
  | c :: rest, line =>
      let line := c :: line
      if line.length = 64 then line.reverse :: pemLinesAux rest []
      else pemLinesAux rest line

/-- Split a character list into 64-character lines, as `pem.EncodeToMemory`
wraps the base64 payload. -/
def pemLines (l : List Char) : List (List Char) :=
  pemLinesAux l []

/-- `pem.EncodeToMemory` for a headerless block. -/
def pemEncodeToMemory (block : PemBlock) : String :=
  "-----BEGIN " ++ block.blockType ++ "-----\n"
    ++ String.join ((pemLines (base64Encode block.bytes)).map (fun l => ⟨l⟩ ++ "\n"))
    ++ "-----END " ++ block.blockType ++ "-----\n"

/-- `encodeResponse` (lines 179–189): base64 of the raw bytes for DER,
otherwise one PEM block of type "X509 CRL" wrapping the raw bytes. -/
def encodeResponse (crlBytes : List Nat) (derFormatRequested : Bool) : String :=
  if derFormatRequested then
    ⟨base64Encode crlBytes⟩
  else
    pemEncodeToMemory { blockType := "X509 CRL", bytes := crlBytes }

/-! ### The handler -/

/-- The template literal of lines 136–142: `ExtraExtensions` starts out as
the Go zero value (empty). -/
def buildTemplate (sigAlg : Int) (revokedCerts : List RevokedCertificate)
    (crlNumber : Int) (now nextUpdateOffset : Int) : RevocationList :=
  { revokedCertificates := revokedCerts
    signatureAlgorithm := sigAlg
    number := crlNumber
    thisUpdate := now
    nextUpdate := now + nextUpdateOffset
    extraExtensions := [] }

/-- Lines 144–150: when `deltaCrlBaseNumber > -1`, build the Delta CRL
Indicator extension and install it as the single extra extension; an
extension-construction failure is wrapped for the internal-error path. -/
def templateWithDelta (deltaCrlBaseNumber : Int)
    (createExt : Int → Except String Extension) (t : RevocationList) :
    Except String RevocationList :=
  if deltaCrlBaseNumber > -1 then
    match createExt deltaCrlBaseNumber with
    | .error e => .error (deltaExtErrMsg e)
    | .ok ext => .ok { t with extraExtensions := [ext] }
  else
    .ok t

/-- Outcome of one handler invocation.  Go's `(*logical.Response, error)`
pair is collapsed: `errorResponse` is `(logical.ErrorResponse(msg), nil)`
(caller-facing validation failure), `internalError` is `(nil, err)` (the
framework's internal-error path), `success` carries the warnings and the
`"crl"` data field, and `panicked` marks a runtime panic. -/
inductive HandlerResult where
  | errorResponse (msg : String)
  | internalError (msg : String)
  | success (warnings : List String) (crl : String)
  | panicked
deriving DecidableEq

/-- Lines 152–157: sign the template and encode the response body. -/
def signTemplate (env : Env) (caBundle : CAInfoBundle) (warnings : List String)
    (format : String) (template : RevocationList) : HandlerResult :=
  match env.createRevocationList template caBundle with
  | .error e => .internalError (createCrlErrMsg e)
  | .ok crlBytes => .success warnings (encodeResponse crlBytes (format == "der"))

/-- A resign request, after the framework's field decoding (`data.Get`). -/
structure ResignRequest where
  issuerRef : String
  crlNumber : Int
  deltaCrlBaseNumber : Int
  nextUpdateStr : String
  rawCrls : List String
  format : String

/-- `pathUpdateResignCrlsHandler` (lines 79–165), with every branch in the
Go source's order.  `getAllRevokedCerts`'s always-nil error return makes
its error branch (lines 131–133) dead, so it is omitted. -/
def pathUpdateResignCrlsHandler (env : Env) (req : ResignRequest) : HandlerResult :=
  if env.useLegacyBundleCaStorage then
    .errorResponse migrationErrMsg
  else
    match getCrlFormat req.format with
    | .error e => .errorResponse e
    | .ok format =>
        match env.parseDuration req.nextUpdateStr with
        | .error e => .errorResponse (invalidNextUpdateMsg e)
        | .ok nextUpdateOffset =>
            if nextUpdateOffset ≤ 0 then
              .errorResponse nextUpdatePositiveMsg
            else if req.crlNumber < 0 then
              .errorResponse crlNumberNonNegMsg
            else if req.deltaCrlBaseNumber < -1 then
              .errorResponse deltaCrlBaseNumberMsg
            else if req.issuerRef = "" then
              .errorResponse issuerRefBlankMsg
            else
              match decodePemCrls env req.rawCrls with
              | .panicked => .panicked
              | .err e => .errorResponse e
              | .ok providedCrls =>
                  match env.getCaBundle req.issuerRef with
                  | .error e => .errorResponse e
                  | .ok caBundle =>
                      match verifyCrlsAreFromIssuersKey env.checkSignatureFrom
                          caBundle.certificate providedCrls with
                      | .error e => .errorResponse e
                      | .ok _ =>
                          let merged := getAllRevokedCerts providedCrls
                          let template := buildTemplate caBundle.revocationSigAlg merged.1
                            req.crlNumber env.now nextUpdateOffset
                          match templateWithDelta req.deltaCrlBaseNumber
                              env.createDeltaCRLIndicatorExt template with
                          | .error e => .internalError e
                          | .ok template2 =>
                              signTemplate env caBundle merged.2 format template2

/-! ## Lemmas about the unique-serial map -/

/-- The keys of the map, in insertion order. -/
def keysOf (m : List (String × RevokedCertificate)) : List String :=
  m.map Prod.fst

theorem keysOf_nil : keysOf [] = [] := rfl

theorem keysOf_cons (kv : String × RevokedCertificate) (m : List (String × RevokedCertificate)) :
    keysOf (kv :: m) = kv.1 :: keysOf m := rfl

theorem lookupSerial_nil (k : String) : lookupSerial k [] = none := rfl

theorem lookupSerial_cons (k : String) (kv : String × RevokedCertificate)
    (m : List (String × RevokedCertificate)) :
    lookupSerial k (kv :: m) = if kv.1 = k then some kv.2 else lookupSerial k m := rfl

theorem setSerial_nil (k : String) (v : RevokedCertificate) : setSerial k v [] = [(k, v)] := rfl

theorem setSerial_cons (k : String) (v : RevokedCertificate)
    (kv : String × RevokedCertificate) (m : List (String × RevokedCertificate)) :
    setSerial k v (kv :: m) =
      if kv.1 = k then (k, v) :: m else kv :: setSerial k v m := rfl

theorem lookupSerial_eq_none_iff (k : String) (m : List (String × RevokedCertificate)) :
    lookupSerial k m = none ↔ k ∉ keysOf m := by
  induction m with
  | nil => simp [lookupSerial_nil, keysOf]
  | cons kv rest ih =>
      by_cases h : kv.1 = k
      · subst h
        simp [lookupSerial_cons, keysOf_cons]
      · have h2 : k ≠ kv.1 := fun he => h he.symm
        simp [lookupSerial_cons, h, keysOf_cons, ih, h2]

theorem lookupSerial_some_mem {k : String} {v : RevokedCertificate}
    {m : List (String × RevokedCertificate)} (h : lookupSerial k m = some v) : (k, v) ∈ m := by
  induction m with
  | nil => simp [lookupSerial_nil] at h
  | cons kv rest ih =>
      by_cases hk : kv.1 = k
      · rw [lookupSerial_cons, if_pos hk] at h
        have hkv : kv = (k, v) := Prod.ext hk (Option.some.inj h)
        exact hkv ▸ List.mem_cons_self kv rest
      · rw [lookupSerial_cons, if_neg hk] at h
        exact List.mem_cons_of_mem kv (ih h)

theorem lookupSerial_of_mem {kv : String × RevokedCertificate}
    {m : List (String × RevokedCertificate)} (hnd : (keysOf m).Nodup) (hm : kv ∈ m) :
    lookupSerial kv.1 m = some kv.2 := by
  induction m with
  | nil => simp at hm
  | cons a rest ih =>
      rw [keysOf_cons, List.nodup_cons] at hnd
      rcases List.mem_cons.mp hm with h | h
      · subst h
        simp [lookupSerial_cons]
      · have hne : ¬ (a.1 = kv.1) := by
          intro he
          exact hnd.1 (he ▸ List.mem_map_of_mem Prod.fst h)
        rw [lookupSerial_cons, if_neg hne]
        exact ih hnd.2 h

theorem lookupSerial_setSerial_self (k : String) (v : RevokedCertificate)
    (m : List (String × RevokedCertificate)) :
    lookupSerial k (setSerial k v m) = some v := by
  induction m with
  | nil => simp [setSerial_nil, lookupSerial_cons]
  | cons a rest ih =>
      by_cases h : a.1 = k
      · simp [setSerial_cons, h, lookupSerial_cons]
      · simp [setSerial_cons, h, lookupSerial_cons, ih]

theorem lookupSerial_setSerial_ne {k' k : String} (h : k' ≠ k) (v : RevokedCertificate)
    (m : List (String × RevokedCertificate)) :
    lookupSerial k' (setSerial k v m) = lookupSerial k' m := by
  have hkk : ¬ (k = k') := fun he => h he.symm
  induction m with
  | nil => simp [setSerial_nil, lookupSerial_cons, lookupSerial_nil, hkk]
  | cons a rest ih =>
      by_cases ha : a.1 = k
      · have hak : ¬ (a.1 = k') := by rw [ha]; exact hkk
        rw [setSerial_cons, if_pos ha, lookupSerial_cons, if_neg hkk,
          lookupSerial_cons, if_neg hak]
      · rw [setSerial_cons, if_neg ha, lookupSerial_cons, lookupSerial_cons, ih]

theorem keysOf_setSerial_mem {k : String} {m : List (String × RevokedCertificate)}
    (h : k ∈ keysOf m) (v : RevokedCertificate) :
    keysOf (setSerial k v m) = keysOf m := by
  induction m with
  | nil => simp [keysOf] at h
  | cons a rest ih =>
      by_cases ha : a.1 = k
      · simp [setSerial, ha, keysOf_cons]
      · rw [keysOf_cons] at h
        have hk : k ∈ keysOf rest := by
          rcases List.mem_cons.mp h with he | he
          · exact absurd he.symm ha
          · exact he
        simp [setSerial, ha, keysOf_cons, ih hk]

theorem keysOf_setSerial_not_mem {k : String} {m : List (String × RevokedCertificate)}
    (h : k ∉ keysOf m) (v : RevokedCertificate) :
    keysOf (setSerial k v m) = keysOf m ++ [k] := by
  induction m with
  | nil => simp [setSerial, keysOf]
  | cons a rest ih =>
      rw [keysOf_cons] at h
      have ha : a.1 ≠ k := fun he => h (he ▸ List.mem_cons_self a.1 (keysOf rest))
      have hk : k ∉ keysOf rest := fun hk => h (List.mem_cons_of_mem _ hk)
      simp [setSerial, ha, keysOf_cons, ih hk]

theorem nodup_keysOf_setSerial {k : String} {m : List (String × RevokedCertificate)}
    (hnd : (keysOf m).Nodup) (v : RevokedCertificate) :
    (keysOf (setSerial k v m)).Nodup := by
  by_cases h : k ∈ keysOf m
  · rw [keysOf_setSerial_mem h]
    exact hnd
  · rw [keysOf_setSerial_not_mem h]
    exact hnd.append (List.nodup_singleton k) (by
      intro a ha hb
      simp at hb
      exact h (hb ▸ ha))

theorem mem_setSerial {kv : String × RevokedCertificate} {k : String}
    {v : RevokedCertificate} {m : List (String × RevokedCertificate)}
    (hnd : (keysOf m).Nodup) (h : kv ∈ setSerial k v m) :
    kv = (k, v) ∨ (kv ∈ m ∧ kv.1 ≠ k) := by
  induction m with
  | nil =>
      simp [setSerial] at h
      exact Or.inl h
  | cons a rest ih =>
      rw [keysOf_cons, List.nodup_cons] at hnd
      by_cases ha : a.1 = k
      · rw [setSerial, if_pos ha] at h
        rcases List.mem_cons.mp h with he | he
        · exact Or.inl he
        · refine Or.inr ⟨List.mem_cons_of_mem a he, fun hk => ?_⟩
          exact hnd.1 (ha ▸ hk ▸ List.mem_map_of_mem Prod.fst he)
      · rw [setSerial, if_neg ha] at h
        rcases List.mem_cons.mp h with he | he
        · exact Or.inr ⟨he ▸ List.mem_cons_self a rest, he ▸ ha⟩
        · rcases ih hnd.2 he with h1 | h1
          · exact Or.inl h1
          · exact Or.inr ⟨List.mem_cons_of_mem a h1.1, h1.2⟩

/-! ## The reconciliation invariant -/

/-- The canonical key of an entry, as computed by the merge loop. -/
def entryKey (c : RevokedCertificate) : String :=
  serialFromBigInt c.serialNumber

theorem clearExtensions_serialNumber (c : RevokedCertificate) :
    (clearExtensions c).serialNumber = c.serialNumber := rfl

theorem clearExtensions_revocationTime (c : RevokedCertificate) :
    (clearExtensions c).revocationTime = c.revocationTime := rfl

theorem entryKey_clearExtensions (c : RevokedCertificate) :
    entryKey (clearExtensions c) = entryKey c := rfl

/-- All entries of a CRL list, in the order the merge loops visit them. -/
def allEntries (crls : List RevocationList) : List RevokedCertificate :=
  (crls.map RevocationList.revokedCertificates).flatten

/-- Invariant of the merge state after processing the entries `seen`:
the map's keys are distinct; every stored entry sits under its own
canonical key, has had its extensions cleared, originates from a seen
entry, and carries the minimal revocation time among the seen entries of
its key; and every seen entry's key is present in the map. -/
def MergeInv (seen : List RevokedCertificate) (st : MergeState) : Prop :=
  (keysOf st.uniqueCert).Nodup ∧
  (∀ kv ∈ st.uniqueCert,
    entryKey kv.2 = kv.1 ∧
    kv.2.extensions = [] ∧
    (∃ c ∈ seen, entryKey c = kv.1 ∧ clearExtensions c = kv.2) ∧
    (∀ c ∈ seen, entryKey c = kv.1 → kv.2.revocationTime ≤ c.revocationTime)) ∧
  (∀ c ∈ seen, ∃ v, lookupSerial (entryKey c) st.uniqueCert = some v)

theorem mergeInv_nil : MergeInv [] { uniqueCert := [], warnings := [] } := by
  refine ⟨List.nodup_nil, ?_, ?_⟩ <;> simp

theorem mergeInv_step {seen : List RevokedCertificate} {st : MergeState}
    (hinv : MergeInv seen st) (c : RevokedCertificate) :
    MergeInv (seen ++ [c]) (mergeRevokedCert st c) := by
  obtain ⟨hnd, hmem, hcov⟩ := hinv
  rw [mergeRevokedCert]
  rcases hlk : lookupSerial (serialFromBigInt c.serialNumber) st.uniqueCert with _ | existing
  · -- first time this serial is seen: seed the map
    simp only
    have hknot : serialFromBigInt c.serialNumber ∉ keysOf st.uniqueCert :=
      (lookupSerial_eq_none_iff _ _).mp hlk
    have hseen_ne : ∀ c' ∈ seen, entryKey c' ≠ entryKey c := by
      intro c' hc' he
      obtain ⟨v, hv⟩ := hcov c' hc'
      rw [he] at hv
      rw [show entryKey c = serialFromBigInt c.serialNumber from rfl, hlk] at hv
      cases hv
    refine ⟨?_, ?_, ?_⟩
    · exact nodup_keysOf_setSerial hnd _
    · intro kv hkv
      rcases mem_setSerial hnd hkv with he | ⟨hin, hne⟩
      · subst he
        refine ⟨rfl, rfl, ⟨c, by simp, rfl, rfl⟩, ?_⟩
        intro c' hc' hk
        rcases List.mem_append.mp hc' with h | h
        · exact absurd hk (hseen_ne c' h)
        · simp at h
          subst h
          exact le_refl _
      · obtain ⟨h1, h2, h3, h4⟩ := hmem kv hin
        refine ⟨h1, h2, ⟨?_, ?_⟩⟩
        · obtain ⟨c0, hc0, hck, hce⟩ := h3
          exact ⟨c0, List.mem_append_left _ hc0, hck, hce⟩
        · intro c' hc' hk
          rcases List.mem_append.mp hc' with h | h
          · exact h4 c' h hk
          · simp at h
            subst h
            exact absurd (hk ▸ hne) (fun hx => hx rfl)
    · intro c' hc'
      rcases List.mem_append.mp hc' with h | h
      · obtain ⟨v, hv⟩ := hcov c' h
        have hne : entryKey c' ≠ serialFromBigInt c.serialNumber := by
          intro he
          rw [he, hlk] at hv
          cases hv
        rw [lookupSerial_setSerial_ne hne]
        exact ⟨v, hv⟩
      · simp at h
        subst h
        exact ⟨_, lookupSerial_setSerial_self _ _ _⟩
  · -- the serial is already in the map
    simp only
    have hmem_e : (serialFromBigInt c.serialNumber, existing) ∈ st.uniqueCert :=
      lookupSerial_some_mem hlk
    obtain ⟨hek, hee, heo, hemin⟩ := hmem _ hmem_e
    have huniq : ∀ kv ∈ st.uniqueCert, kv.1 = serialFromBigInt c.serialNumber →
        kv.2 = existing := by
      intro kv hkv hk
      have := lookupSerial_of_mem hnd hkv
      rw [hk, hlk] at this
      exact (Option.some.inj this).symm
    by_cases heq : existing.revocationTime = (clearExtensions c).revocationTime
    · -- equal times: silently skip
      rw [if_pos heq]
      refine ⟨hnd, ?_, ?_⟩
      · intro kv hkv
        obtain ⟨h1, h2, h3, h4⟩ := hmem kv hkv
        refine ⟨h1, h2, ?_, ?_⟩
        · obtain ⟨c0, hc0, hck, hce⟩ := h3
          exact ⟨c0, List.mem_append_left _ hc0, hck, hce⟩
        · intro c' hc' hk
          rcases List.mem_append.mp hc' with h | h
          · exact h4 c' h hk
          · simp at h
            subst h
            have : kv.2 = existing := huniq kv hkv (by rw [← hk]; rfl)
            rw [this, heq]
            exact le_refl _
      · intro c' hc'
        rcases List.mem_append.mp hc' with h | h
        · exact hcov c' h
        · simp at h
          subst h
          exact ⟨existing, hlk⟩
    · rw [if_neg heq]
      by_cases hafter : existing.revocationTime > (clearExtensions c).revocationTime
      · -- the new entry is strictly earlier: replace
        rw [if_pos hafter]
        refine ⟨nodup_keysOf_setSerial hnd _, ?_, ?_⟩
        · intro kv hkv
          rcases mem_setSerial hnd hkv with he | ⟨hin, hne⟩
          · subst he
            refine ⟨rfl, rfl, ⟨c, by simp, rfl, rfl⟩, ?_⟩
            intro c' hc' hk
            rcases List.mem_append.mp hc' with h | h
            · have hle : existing.revocationTime ≤ c'.revocationTime := hemin c' h hk
              have hlt : (clearExtensions c).revocationTime < existing.revocationTime := hafter
              show (clearExtensions c).revocationTime ≤ c'.revocationTime
              omega
            · simp at h
              subst h
              exact le_refl _
          · obtain ⟨h1, h2, h3, h4⟩ := hmem kv hin
            refine ⟨h1, h2, ?_, ?_⟩
            · obtain ⟨c0, hc0, hck, hce⟩ := h3
              exact ⟨c0, List.mem_append_left _ hc0, hck, hce⟩
            · intro c' hc' hk
              rcases List.mem_append.mp hc' with h | h
              · exact h4 c' h hk
              · simp at h
                subst h
                exact absurd (hk ▸ hne) (fun hx => hx rfl)
        · intro c' hc'
          rcases List.mem_append.mp hc' with h | h
          · obtain ⟨v, hv⟩ := hcov c' h
            by_cases he : entryKey c' = serialFromBigInt c.serialNumber
            · rw [he]
              exact ⟨_, lookupSerial_setSerial_self _ _ _⟩
            · rw [lookupSerial_setSerial_ne he]
              exact ⟨v, hv⟩
          · simp at h
            subst h
            exact ⟨_, lookupSerial_setSerial_self _ _ _⟩
      · -- the stored entry is earlier: keep it
        rw [if_neg hafter]
        refine ⟨hnd, ?_, ?_⟩
        · intro kv hkv
          obtain ⟨h1, h2, h3, h4⟩ := hmem kv hkv
          refine ⟨h1, h2, ?_, ?_⟩
          · obtain ⟨c0, hc0, hck, hce⟩ := h3
            exact ⟨c0, List.mem_append_left _ hc0, hck, hce⟩
          · intro c' hc' hk
            rcases List.mem_append.mp hc' with h | h
            · exact h4 c' h hk
            · simp at h
              have hkv2 : kv.2 = existing := huniq kv hkv (by rw [← hk, h]; rfl)
              rw [hkv2, h]
              have hng : ¬ existing.revocationTime > (clearExtensions c).revocationTime :=
                hafter
              have hcc : (clearExtensions c).revocationTime = c.revocationTime := rfl
              omega
        · intro c' hc'
          rcases List.mem_append.mp hc' with h | h
          · exact hcov c' h
          · simp at h
            subst h
            exact ⟨existing, hlk⟩

theorem mergeInv_foldl {l : List RevokedCertificate} :
    ∀ {seen : List RevokedCertificate} {st : MergeState}, MergeInv seen st →
    MergeInv (seen ++ l) (l.foldl mergeRevokedCert st) := by
  induction l with
  | nil => intro seen st h; simpa using h
  | cons c rest ih =>
      intro seen st h
      have h1 := mergeInv_step h c
      have h2 := ih h1
      rw [List.append_assoc] at h2
      simpa using h2

theorem mergeInv_mergeCrls (crls : List RevocationList) :
    MergeInv (allEntries crls) (mergeCrls crls) := by
  suffices h : ∀ (cs : List RevocationList) (seen : List RevokedCertificate) (st : MergeState),
      MergeInv seen st → MergeInv (seen ++ allEntries cs) (cs.foldl mergeCrl st) by
    simpa using h crls [] { uniqueCert := [], warnings := [] } mergeInv_nil
  intro cs
  induction cs with
  | nil => intro seen st h; simpa [allEntries] using h
  | cons crl rest ih =>
      intro seen st h
      rw [List.foldl_cons]
      have h1 : MergeInv (seen ++ crl.revokedCertificates) (mergeCrl st crl) :=
        mergeInv_foldl h
      have h2 := ih _ _ h1
      rw [List.append_assoc] at h2
      simpa [allEntries] using h2

/-! ## Idempotent-merge machinery -/

/-- A list of entries assigns at most one revocation time per canonical
serial key.  Any CRL that does not itself list one serial under two
different revocation times satisfies this. -/
def TimeConsistent (l : List RevokedCertificate) : Prop :=
  ∀ c1 ∈ l, ∀ c2 ∈ l, entryKey c1 = entryKey c2 →
    c1.revocationTime = c2.revocationTime

/-- Every entry of `l` is already stored in `st` with the same revocation
time. -/
def Covers (st : MergeState) (l : List RevokedCertificate) : Prop :=
  ∀ c ∈ l, ∃ v, lookupSerial (entryKey c) st.uniqueCert = some v ∧
    v.revocationTime = c.revocationTime

/-- Whatever `st` stores under the key of an entry of `l` agrees with that
entry's revocation time. -/
def Compat (st : MergeState) (l : List RevokedCertificate) : Prop :=
  ∀ c ∈ l, ∀ v, lookupSerial (entryKey c) st.uniqueCert = some v →
    v.revocationTime = c.revocationTime

/-- Entries that are already stored with equal times are skipped silently:
the merge loop is the identity on a covering state. -/
theorem foldl_merge_of_covers {l : List RevokedCertificate} :
    ∀ {st : MergeState}, Covers st l → l.foldl mergeRevokedCert st = st := by
  induction l with
  | nil => intro st _; rfl
  | cons c rest ih =>
      intro st h
      obtain ⟨v, hv, ht⟩ := h c (List.mem_cons_self c rest)
      have hv2 : lookupSerial (serialFromBigInt c.serialNumber) st.uniqueCert = some v := hv
      have hstep : mergeRevokedCert st c = st := by
        simp only [mergeRevokedCert, hv2]
        rw [if_pos]
        rw [clearExtensions_revocationTime]
        exact ht
      rw [List.foldl_cons, hstep]
      exact ih (fun c' hc' => h c' (List.mem_cons_of_mem c hc'))

/-- Processing a time-consistent entry list from a compatible state adds
no warnings, preserves every stored entry, and afterwards covers the
list. -/
theorem foldl_merge_steady {l : List RevokedCertificate} :
    ∀ {st : MergeState}, TimeConsistent l → Compat st l →
      (l.foldl mergeRevokedCert st).warnings = st.warnings ∧
      (∀ k v, lookupSerial k st.uniqueCert = some v →
        lookupSerial k (l.foldl mergeRevokedCert st).uniqueCert = some v) ∧
      Covers (l.foldl mergeRevokedCert st) l := by
  induction l with
  | nil =>
      intro st _ _
      exact ⟨rfl, fun k v h => h, fun c hc => absurd hc (List.not_mem_nil c)⟩
  | cons c rest ih =>
      intro st hcons hcompat
      have hconsr : TimeConsistent rest := fun c1 h1 c2 h2 =>
        hcons c1 (List.mem_cons_of_mem c h1) c2 (List.mem_cons_of_mem c h2)
      rw [List.foldl_cons]
      rcases hlk : lookupSerial (entryKey c) st.uniqueCert with _ | v
      · -- the key is new: the step inserts the cleared entry, no warning
        have hlk2 : lookupSerial (serialFromBigInt c.serialNumber) st.uniqueCert = none := hlk
        have hstep : mergeRevokedCert st c =
            { st with uniqueCert :=
                setSerial (serialFromBigInt c.serialNumber) (clearExtensions c) st.uniqueCert } := by
          simp only [mergeRevokedCert, hlk2]
        have hpresB : ∀ k v', lookupSerial k st.uniqueCert = some v' →
            lookupSerial k (mergeRevokedCert st c).uniqueCert = some v' := by
          intro k v' hkv
          have hne : k ≠ serialFromBigInt c.serialNumber := by
            intro he
            rw [he] at hkv
            rw [(show lookupSerial (serialFromBigInt c.serialNumber) st.uniqueCert = none from hlk2)] at hkv
            cases hkv
          rw [hstep]
          simpa [lookupSerial_setSerial_ne hne] using hkv
        have hself : lookupSerial (entryKey c) (mergeRevokedCert st c).uniqueCert =
            some (clearExtensions c) := by
          rw [hstep]
          exact lookupSerial_setSerial_self _ _ _
        have hcompat2 : Compat (mergeRevokedCert st c) rest := by
          intro c' hc' v' hv'
          by_cases he : entryKey c' = entryKey c
          · rw [he, hself] at hv'
            have : v' = clearExtensions c := (Option.some.inj hv').symm
            rw [this, clearExtensions_revocationTime]
            exact hcons c (List.mem_cons_self c rest) c' (List.mem_cons_of_mem c hc') he.symm
          · rw [hstep] at hv'
            have hne : entryKey c' ≠ serialFromBigInt c.serialNumber := he
            rw [show (({ st with uniqueCert := setSerial (serialFromBigInt c.serialNumber) (clearExtensions c) st.uniqueCert } : MergeState)).uniqueCert = setSerial (serialFromBigInt c.serialNumber) (clearExtensions c) st.uniqueCert from rfl,
              lookupSerial_setSerial_ne hne] at hv'
            exact hcompat c' (List.mem_cons_of_mem c hc') v' hv'
        obtain ⟨ihw, ihp, ihc⟩ := ih hconsr hcompat2
        refine ⟨by rw [ihw, hstep], ?_, ?_⟩
        · intro k v' hkv
          exact ihp k v' (hpresB k v' hkv)
        · intro c' hc'
          rcases List.mem_cons.mp hc' with he | he
          · subst he
            exact ⟨clearExtensions c', ihp _ _ hself, clearExtensions_revocationTime c'⟩
          · exact ihc c' he
      · -- the key is present with the same time: the step is a silent skip
        have hvt : v.revocationTime = c.revocationTime :=
          hcompat c (List.mem_cons_self c rest) v hlk
        have hlk2 : lookupSerial (serialFromBigInt c.serialNumber) st.uniqueCert = some v := hlk
        have hstep : mergeRevokedCert st c = st := by
          simp only [mergeRevokedCert, hlk2]
          rw [if_pos]
          rw [clearExtensions_revocationTime]
          exact hvt
        rw [hstep]
        have hcompat2 : Compat st rest := fun c' hc' =>
          hcompat c' (List.mem_cons_of_mem c hc')
        obtain ⟨ihw, ihp, ihc⟩ := ih hconsr hcompat2
        refine ⟨ihw, ihp, ?_⟩
        intro c' hc'
        rcases List.mem_cons.mp hc' with he | he
        · subst he
          exact ⟨v, ihp _ _ hlk, hvt⟩
        · exact ihc c' he

/-! ## Concrete fixtures used by witnesses -/

/-- A CRL carrying a single revoked entry. -/
def crlOneEntry (s T : Int) (e : List Extension) : RevocationList :=
  { revokedCertificates := [{ serialNumber := s, revocationTime := T, extensions := e }] }

/-- A CRL that itself lists serial 1 under two different revocation
times. -/
def crlDup : RevocationList :=
  { revokedCertificates :=
      [{ serialNumber := 1, revocationTime := 0, extensions := [] },
       { serialNumber := 1, revocationTime := 5, extensions := [] }] }

/-! ## Claim theorems: the reconciler -/

/-- C1: two input CRLs both revoke serial `s`, at times `T1 < T2`; in
either presentation order the reconciled set holds exactly the one entry
for `s` with the earlier time `T1` (extensions cleared), and the warning
list is exactly one warning naming `s`'s canonical serial string. -/
theorem mergeTwoCrls_conflict_earlier_wins (s T1 T2 : Int) (e1 e2 : List Extension)
    (h : T1 < T2) :
    getAllRevokedCerts [crlOneEntry s T1 e1, crlOneEntry s T2 e2] =
      ([{ serialNumber := s, revocationTime := T1, extensions := [] }],
        [duplicateWarning (serialFromBigInt s)]) ∧
    getAllRevokedCerts [crlOneEntry s T2 e2, crlOneEntry s T1 e1] =
      ([{ serialNumber := s, revocationTime := T1, extensions := [] }],
        [duplicateWarning (serialFromBigInt s)]) := by
  have h1 : ¬ (T1 = T2) := by omega
  have h2 : ¬ (T1 > T2) := by omega
  have h3 : ¬ (T2 = T1) := by omega
  have h4 : T2 > T1 := h
  constructor <;>
    simp [getAllRevokedCerts, mergeCrls, mergeCrl, mergeRevokedCert, crlOneEntry,
      clearExtensions, lookupSerial_cons, lookupSerial_nil, setSerial_nil, setSerial_cons,
      h1, h2, h3, h4]

/-- Witness for C1 at `s = 12345`, `T1 = 3`, `T2 = 8`. -/
theorem mergeTwoCrls_conflict_earlier_wins_witness :
    getAllRevokedCerts [crlOneEntry 12345 3 [], crlOneEntry 12345 8 []] =
      ([{ serialNumber := 12345, revocationTime := 3, extensions := [] }],
        [duplicateWarning (serialFromBigInt 12345)]) ∧
    getAllRevokedCerts [crlOneEntry 12345 8 [], crlOneEntry 12345 3 []] =
      ([{ serialNumber := 12345, revocationTime := 3, extensions := [] }],
        [duplicateWarning (serialFromBigInt 12345)]) :=
  mergeTwoCrls_conflict_earlier_wins 12345 3 8 [] [] (by omega)

/-- C5 counterexample: for a CRL that itself lists the same serial under
two different revocation times, merging it twice emits more warnings than
merging it once (two versus one), so the duplicate occurrences do NOT
produce zero warnings.  The reconciled mapping is unchanged; only the
warning half of the claim fails. -/
theorem mergeSelf_warning_counterexample :
    (getAllRevokedCerts [crlDup, crlDup]).2 ≠ (getAllRevokedCerts [crlDup]).2 := by
  decide

/-- C5 as amended: provided the CRL's own entries give at most one
revocation time per canonical serial (true of any well-formed CRL),
supplying it twice yields exactly the merge of supplying it once — same
serial-to-entry mapping and same warnings — and no warnings at all are
produced. -/
theorem mergeSelf_idempotent_of_timeConsistent (A : RevocationList)
    (h : TimeConsistent A.revokedCertificates) :
    getAllRevokedCerts [A, A] = getAllRevokedCerts [A] ∧
    (getAllRevokedCerts [A, A]).2 = [] := by
  have hcompat : Compat { uniqueCert := [], warnings := [] } A.revokedCertificates := by
    intro c hc v hv
    rw [show ({ uniqueCert := [], warnings := [] } : MergeState).uniqueCert = [] from rfl,
      lookupSerial_nil] at hv
    cases hv
  obtain ⟨hw, hpres, hcov⟩ := foldl_merge_steady h hcompat
  have h1 : mergeCrls [A] =
      A.revokedCertificates.foldl mergeRevokedCert { uniqueCert := [], warnings := [] } := rfl
  have h2 : mergeCrls [A, A] =
      A.revokedCertificates.foldl mergeRevokedCert (mergeCrls [A]) := rfl
  have hms : mergeCrls [A, A] = mergeCrls [A] := by
    rw [h2]
    apply foldl_merge_of_covers
    rw [h1]
    exact hcov
  constructor
  · show ((mergeCrls [A, A]).uniqueCert.map (fun kv => kv.2), (mergeCrls [A, A]).warnings) = _
    rw [hms]
    rfl
  · show (mergeCrls [A, A]).warnings = []
    rw [hms, h1, hw]

/-- Witness for the amended C5 on a concrete time-consistent CRL. -/
theorem mergeSelf_idempotent_witness :
    getAllRevokedCerts [crlOneEntry 7 2 [], crlOneEntry 7 2 []] =
      getAllRevokedCerts [crlOneEntry 7 2 []] ∧
    (getAllRevokedCerts [crlOneEntry 7 2 [], crlOneEntry 7 2 []]).2 = [] :=
  mergeSelf_idempotent_of_timeConsistent (crlOneEntry 7 2 []) (by
    intro c1 h1 c2 h2 _
    simp [crlOneEntry] at h1 h2
    rw [h1, h2])

/-- C8: the reconciled set holds at most one entry per serial number, and
each retained entry is an input entry (with its extensions cleared) whose
revocation time is minimal among all input entries bearing that serial. -/
theorem getAllRevokedCerts_unique_serial_earliest_time (crls : List RevocationList) :
    List.Pairwise (fun a b => a.serialNumber ≠ b.serialNumber) (getAllRevokedCerts crls).1 ∧
    ∀ e ∈ (getAllRevokedCerts crls).1,
      (∃ c ∈ allEntries crls, c.serialNumber = e.serialNumber ∧ clearExtensions c = e) ∧
      ∀ c ∈ allEntries crls, c.serialNumber = e.serialNumber →
        e.revocationTime ≤ c.revocationTime := by
  obtain ⟨hnd, hmem, _⟩ := mergeInv_mergeCrls crls
  have hout : (getAllRevokedCerts crls).1 =
      (mergeCrls crls).uniqueCert.map (fun kv => kv.2) := rfl
  constructor
  · rw [hout, List.pairwise_map]
    have h2 : List.Pairwise (fun a b : String => a ≠ b)
        ((mergeCrls crls).uniqueCert.map Prod.fst) := hnd
    have hnd2 : List.Pairwise (fun a b : String × RevokedCertificate => a.1 ≠ b.1)
        (mergeCrls crls).uniqueCert := List.pairwise_map.mp h2
    refine List.Pairwise.imp_of_mem ?_ hnd2
    intro a b ha hb hab hser
    apply hab
    rw [← (hmem a ha).1, ← (hmem b hb).1]
    show serialFromBigInt a.2.serialNumber = serialFromBigInt b.2.serialNumber
    rw [hser]
  · intro e he
    rw [hout] at he
    obtain ⟨kv, hkv, hkve⟩ := List.mem_map.mp he
    obtain ⟨h1, _, h3, h4⟩ := hmem kv hkv
    constructor
    · obtain ⟨c0, hc0, _, hce⟩ := h3
      refine ⟨c0, hc0, ?_, by rw [hce, hkve]⟩
      rw [← hkve, ← hce, clearExtensions_serialNumber]
    · intro c hc hcs
      have hk : entryKey c = kv.1 := by
        rw [← h1, hkve]
        show serialFromBigInt c.serialNumber = serialFromBigInt e.serialNumber
        rw [hcs]
      have hle := h4 c hc hk
      rw [← hkve]
      exact hle

/-- Witness for C8 on a two-CRL input with a conflicting serial: the
retained entry for serial 9 has the minimal time over all entries bearing
serial 9. -/
theorem getAllRevokedCerts_unique_serial_earliest_time_witness :
    ∀ c ∈ allEntries [crlOneEntry 9 4 [], crlOneEntry 9 6 []],
      c.serialNumber =
        ({ serialNumber := 9, revocationTime := 4, extensions := [] } :
          RevokedCertificate).serialNumber →
      ({ serialNumber := 9, revocationTime := 4, extensions := [] } :
        RevokedCertificate).revocationTime ≤ c.revocationTime :=
  ((getAllRevokedCerts_unique_serial_earliest_time
      [crlOneEntry 9 4 [], crlOneEntry 9 6 []]).2
    { serialNumber := 9, revocationTime := 4, extensions := [] } (by decide)).2

/-! ## Claim theorems: the handler pipeline -/

/-- The verifier loop reports the first failing index: if every CRL before
position `i` passes the signature check and the CRL at `i` fails it, the
loop started at counter `k` errors out naming `k + i`. -/
theorem verifyCrlsFrom_first_fail (check : Certificate → RevocationList → Bool)
    (ca : Certificate) :
    ∀ (l : List RevocationList) (k i : Nat) (c : RevocationList),
      l[i]? = some c → check ca c = false →
      (∀ j cj, j < i → l[j]? = some cj → check ca cj = true) →
      verifyCrlsFrom check ca k l = .error (verifyErrMsg (k + i)) := by
  intro l
  induction l with
  | nil =>
      intro k i c hc _ _
      simp at hc
  | cons hd tl ih =>
      intro k i c hc hf hpre
      cases i with
      | zero =>
          simp at hc
          subst hc
          simp [verifyCrlsFrom, hf]
      | succ j =>
          have h0 : check ca hd = true := hpre 0 hd (Nat.succ_pos j) (by simp)
          have harith : k + 1 + j = k + (j + 1) := by omega
          have hrec := ih (k + 1) j c (by simpa using hc) hf
            (fun j' cj hj hcj => hpre (j' + 1) cj (by omega) (by simpa using hcj))
          simp only [verifyCrlsFrom, h0, if_true]
          rw [hrec, harith]

/-- C2: a signature-verification failure at the first failing index `i`
aborts the whole operation with the caller-facing error naming `i`; the
response carries nothing except that message, so no CRL entry — not even
from the CRLs that did verify — contributes to any output, and the
reconciler's result is discarded unreached. -/
theorem handler_verify_failure_aborts (env : Env) (req : ResignRequest)
    (fmt : String) (d : Int) (crls : List RevocationList) (bundle : CAInfoBundle)
    (i : Nat) (crlI : RevocationList)
    (h0 : env.useLegacyBundleCaStorage = false)
    (h1 : getCrlFormat req.format = .ok fmt)
    (h2 : env.parseDuration req.nextUpdateStr = .ok d)
    (h3 : 0 < d)
    (h4 : 0 ≤ req.crlNumber)
    (h5 : -1 ≤ req.deltaCrlBaseNumber)
    (h6 : ¬ (req.issuerRef = ""))
    (h7 : decodePemCrls env req.rawCrls = .ok crls)
    (h8 : env.getCaBundle req.issuerRef = .ok bundle)
    (h9 : crls[i]? = some crlI)
    (h10 : env.checkSignatureFrom bundle.certificate crlI = false)
    (h11 : ∀ j cj, j < i → crls[j]? = some cj →
      env.checkSignatureFrom bundle.certificate cj = true) :
    pathUpdateResignCrlsHandler env req = .errorResponse (verifyErrMsg i) := by
  have hv : verifyCrlsAreFromIssuersKey env.checkSignatureFrom bundle.certificate crls =
      .error (verifyErrMsg i) := by
    have h := verifyCrlsFrom_first_fail env.checkSignatureFrom bundle.certificate
      crls 0 i crlI h9 h10 h11
    simpa [verifyCrlsAreFromIssuersKey] using h
  simp [pathUpdateResignCrlsHandler, h0, h1, h2, h6, h7, h8, hv,
    show ¬ (d ≤ 0) by omega, show ¬ (req.crlNumber < 0) by omega,
    show ¬ (req.deltaCrlBaseNumber < -1) by omega]

/-- C4: a format token that does not lower-case to "pem" or "der" makes
the handler return a caller-facing validation error; when the migration
gate is open, it is exactly the unknown-format message, and the result is
the same for every environment — no collaborator (decoder, verifier,
signer) is consulted.  Conversely every casing that lower-cases to "pem"
or "der" is accepted by `getCrlFormat`. -/
theorem getCrlFormat_gate :
    (∀ (env : Env) (req : ResignRequest),
      ¬ (stringToLower req.format = "pem" ∨ stringToLower req.format = "der") →
      (∃ msg, pathUpdateResignCrlsHandler env req = .errorResponse msg) ∧
      (env.useLegacyBundleCaStorage = false →
        pathUpdateResignCrlsHandler env req = .errorResponse (unknownFormatMsg req.format))) ∧
    (∀ s : String, (stringToLower s = "pem" ∨ stringToLower s = "der") →
      getCrlFormat s = .ok (stringToLower s)) := by
  constructor
  · intro env req h
    have hz : getCrlFormat req.format = .error (unknownFormatMsg req.format) := by
      simp only [getCrlFormat]
      rw [if_neg h]
    constructor
    · by_cases hleg : env.useLegacyBundleCaStorage
      · exact ⟨migrationErrMsg, by simp [pathUpdateResignCrlsHandler, hleg]⟩
      · refine ⟨unknownFormatMsg req.format, ?_⟩
        simp [pathUpdateResignCrlsHandler, hleg, hz]
    · intro hleg
      simp [pathUpdateResignCrlsHandler, hleg, hz]
  · intro s hs
    simp only [getCrlFormat]
    rw [if_pos hs]

/-! ## Concrete environments and requests for witnesses and failing
inputs -/

def bundleW : CAInfoBundle := { certificate := { certId := 7 }, revocationSigAlg := 4 }

def extW : Extension := { oid := [2, 5, 29, 27], critical := true, value := [3] }

/-- A benign environment: every collaborator succeeds; `pemDecode` obeys
the documented `pem.Decode` contract for inputs holding no PEM data
(block `none`, the whole input as rest). -/
def envW : Env :=
  { useLegacyBundleCaStorage := false
    parseDuration := fun _ => .ok 72
    pemDecode := fun s => (none, s)
    parseRevocationList := fun _ => .ok { revokedCertificates := [] }
    getCaBundle := fun _ => .ok bundleW
    checkSignatureFrom := fun _ _ => true
    createDeltaCRLIndicatorExt := fun _ => .ok extW
    createRevocationList := fun _ _ => .ok [1, 2, 3]
    now := 1000 }

def reqW : ResignRequest :=
  { issuerRef := "default", crlNumber := 5, deltaCrlBaseNumber := -1,
    nextUpdateStr := "72h", rawCrls := [], format := "pem" }

/-- C3 failing input: a request whose `crls` list contains the empty
string.  `pem.Decode` finds no block there and returns the empty rest, so
the `len(rest) != 0` guard passes and `block.Bytes` dereferences a nil
pointer: the operation panics instead of returning the structured decode
error the claim requires. -/
theorem decodePemCrl_empty_string_panics :
    pathUpdateResignCrlsHandler envW { reqW with rawCrls := [""] } = .panicked ∧
    decodePemCrls envW [""] = GoResult.panicked := by
  decide

def crlNumbered (n : Int) : RevocationList := { revokedCertificates := [], number := n }

/-- An environment whose decoder produces a CRL tagged with the input's
length and whose signature check accepts only the CRL tagged 1, so that a
two-element request fails verification exactly at index 1. -/
def envVerify : Env :=
  { envW with
    pemDecode := fun s => (some { blockType := "X509 CRL", bytes := [s.length] }, "")
    parseRevocationList := fun bytes => .ok (crlNumbered (Int.ofNat (bytes.headD 0)))
    checkSignatureFrom := fun _ crl => crl.number == 1 }

def reqVerify : ResignRequest := { reqW with rawCrls := ["a", "bb"] }

/-- Witness for C2: the second of two CRLs fails the signature check and
the handler answers with the error naming index 1. -/
theorem handler_verify_failure_aborts_witness :
    pathUpdateResignCrlsHandler envVerify reqVerify = .errorResponse (verifyErrMsg 1) :=
  handler_verify_failure_aborts envVerify reqVerify "pem" 72
    [crlNumbered 1, crlNumbered 2] bundleW 1 (crlNumbered 2)
    rfl rfl rfl (by decide) (by decide) (by decide) (by decide) (by decide) rfl
    (by decide) (by decide)
    (by
      intro j cj hj hcj
      have hj0 : j = 0 := by omega
      subst hj0
      simp at hcj
      subst hcj
      decide)

/-- Witness for C4: `format="xml"` is rejected with the unknown-format
message in the benign environment, and "PeM" is accepted. -/
theorem getCrlFormat_gate_witness :
    (∃ msg, pathUpdateResignCrlsHandler envW { reqW with format := "xml" } =
      .errorResponse msg) ∧
    pathUpdateResignCrlsHandler envW { reqW with format := "xml" } =
      .errorResponse (unknownFormatMsg "xml") ∧
    getCrlFormat "PeM" = .ok (stringToLower "PeM") :=
  ⟨(getCrlFormat_gate.1 envW { reqW with format := "xml" } (by decide)).1,
   (getCrlFormat_gate.1 envW { reqW with format := "xml" } (by decide)).2 rfl,
   getCrlFormat_gate.2 "PeM" (Or.inl (by decide))⟩

/-- C6: the base template carries no extra extension; resigning with
`deltaCrlBaseNumber = -1` leaves the template untouched, while any value
`≥ 0` installs exactly the one Delta CRL Indicator extension built for
that base number; and on the success path the handler signs exactly the
template produced this way. -/
theorem templateWithDelta_delta_indicator :
    (∀ (sigAlg : Int) (certs : List RevokedCertificate) (num now off : Int),
      (buildTemplate sigAlg certs num now off).extraExtensions = []) ∧
    (∀ (f : Int → Except String Extension) (t : RevocationList),
      templateWithDelta (-1) f t = .ok t) ∧
    (∀ (n : Int) (f : Int → Except String Extension) (t : RevocationList) (e : Extension),
      0 ≤ n → f n = .ok e →
      templateWithDelta n f t = .ok { t with extraExtensions := [e] }) ∧
    (∀ (env : Env) (req : ResignRequest) (fmt : String) (d : Int)
      (crls : List RevocationList) (bundle : CAInfoBundle),
      env.useLegacyBundleCaStorage = false →
      getCrlFormat req.format = .ok fmt →
      env.parseDuration req.nextUpdateStr = .ok d →
      0 < d → 0 ≤ req.crlNumber → -1 ≤ req.deltaCrlBaseNumber →
      ¬ (req.issuerRef = "") →
      decodePemCrls env req.rawCrls = .ok crls →
      env.getCaBundle req.issuerRef = .ok bundle →
      verifyCrlsAreFromIssuersKey env.checkSignatureFrom bundle.certificate crls = .ok () →
      pathUpdateResignCrlsHandler env req =
        match templateWithDelta req.deltaCrlBaseNumber env.createDeltaCRLIndicatorExt
            (buildTemplate bundle.revocationSigAlg (getAllRevokedCerts crls).1
              req.crlNumber env.now d) with
        | .error e => .internalError e
        | .ok t2 => signTemplate env bundle (getAllRevokedCerts crls).2 fmt t2) := by
  refine ⟨fun _ _ _ _ _ => rfl, ?_, ?_, ?_⟩
  · intro f t
    simp [templateWithDelta]
  · intro n f t e hn hf
    simp [templateWithDelta, hf, show (-1 : Int) < n by omega]
  · intro env req fmt d crls bundle h0 h1 h2 h3 h4 h5 h6 h7 h8 hv
    simp [pathUpdateResignCrlsHandler, h0, h1, h2, h6, h7, h8, hv,
      show ¬ (d ≤ 0) by omega, show ¬ (req.crlNumber < 0) by omega,
      show ¬ (req.deltaCrlBaseNumber < -1) by omega]

/-- Witness for C6: `-1` leaves the benign template alone; base number 3
installs exactly `[extW]`; and the handler on the benign environment with
base number 3 signs and succeeds. -/
theorem templateWithDelta_delta_indicator_witness :
    templateWithDelta (-1) (fun _ => .ok extW) (buildTemplate 4 [] 5 1000 72) =
      .ok (buildTemplate 4 [] 5 1000 72) ∧
    templateWithDelta 3 (fun _ => .ok extW) (buildTemplate 4 [] 5 1000 72) =
      .ok { buildTemplate 4 [] 5 1000 72 with extraExtensions := [extW] } ∧
    pathUpdateResignCrlsHandler envW { reqW with deltaCrlBaseNumber := 3 } =
      .success [] (encodeResponse [1, 2, 3] false) :=
  ⟨templateWithDelta_delta_indicator.2.1 (fun _ => .ok extW) (buildTemplate 4 [] 5 1000 72),
   templateWithDelta_delta_indicator.2.2.1 3 (fun _ => .ok extW)
     (buildTemplate 4 [] 5 1000 72) extW (by decide) rfl,
   templateWithDelta_delta_indicator.2.2.2 envW { reqW with deltaCrlBaseNumber := 3 }
     "pem" 72 [] bundleW rfl rfl rfl (by decide) (by decide) (by decide) (by decide)
     rfl rfl rfl⟩

/-- `templateWithDelta` only ever fails with the wrapped
extension-construction message. -/
theorem templateWithDelta_error {n : Int} {f : Int → Except String Extension}
    {t : RevocationList} {e : String} (h : templateWithDelta n f t = .error e) :
    ∃ e0, e = deltaExtErrMsg e0 := by
  rw [templateWithDelta] at h
  by_cases hn : n > -1
  · rw [if_pos hn] at h
    rcases hf : f n with e0 | ext
    · rw [hf] at h
      exact ⟨e0, (Except.error.inj h).symm⟩
    · rw [hf] at h
      cases h
  · rw [if_neg hn] at h
    cases h

/-- C7: extension-construction failure and signing failure surface as the
internal-error path (a Go error, not a caller-facing response), and those
are the only two sources of internal errors — every validation failure
travels the `errorResponse` path instead. -/
theorem handler_error_taxonomy :
    (∀ (env : Env) (req : ResignRequest) (fmt : String) (d : Int)
        (crls : List RevocationList) (bundle : CAInfoBundle) (e : String),
      env.useLegacyBundleCaStorage = false →
      getCrlFormat req.format = .ok fmt →
      env.parseDuration req.nextUpdateStr = .ok d →
      0 < d → 0 ≤ req.crlNumber → -1 ≤ req.deltaCrlBaseNumber →
      ¬ (req.issuerRef = "") →
      decodePemCrls env req.rawCrls = .ok crls →
      env.getCaBundle req.issuerRef = .ok bundle →
      verifyCrlsAreFromIssuersKey env.checkSignatureFrom bundle.certificate crls = .ok () →
      -1 < req.deltaCrlBaseNumber →
      env.createDeltaCRLIndicatorExt req.deltaCrlBaseNumber = .error e →
      pathUpdateResignCrlsHandler env req = .internalError (deltaExtErrMsg e)) ∧
    (∀ (env : Env) (req : ResignRequest) (fmt : String) (d : Int)
        (crls : List RevocationList) (bundle : CAInfoBundle)
        (t2 : RevocationList) (e : String),
      env.useLegacyBundleCaStorage = false →
      getCrlFormat req.format = .ok fmt →
      env.parseDuration req.nextUpdateStr = .ok d →
      0 < d → 0 ≤ req.crlNumber → -1 ≤ req.deltaCrlBaseNumber →
      ¬ (req.issuerRef = "") →
      decodePemCrls env req.rawCrls = .ok crls →
      env.getCaBundle req.issuerRef = .ok bundle →
      verifyCrlsAreFromIssuersKey env.checkSignatureFrom bundle.certificate crls = .ok () →
      templateWithDelta req.deltaCrlBaseNumber env.createDeltaCRLIndicatorExt
        (buildTemplate bundle.revocationSigAlg (getAllRevokedCerts crls).1
          req.crlNumber env.now d) = .ok t2 →
      env.createRevocationList t2 bundle = .error e →
      pathUpdateResignCrlsHandler env req = .internalError (createCrlErrMsg e)) ∧
    (∀ (env : Env) (req : ResignRequest) (m : String),
      pathUpdateResignCrlsHandler env req = .internalError m →
      (∃ e, m = deltaExtErrMsg e) ∨ (∃ e, m = createCrlErrMsg e)) := by
  refine ⟨?_, ?_, ?_⟩
  · intro env req fmt d crls bundle e h0 h1 h2 h3 h4 h5 h6 h7 h8 hver hgt hext
    simp [pathUpdateResignCrlsHandler, h0, h1, h2, h6, h7, h8, hver,
      templateWithDelta, hgt, hext,
      show ¬ (d ≤ 0) by omega, show ¬ (req.crlNumber < 0) by omega,
      show ¬ (req.deltaCrlBaseNumber < -1) by omega]
  · intro env req fmt d crls bundle t2 e h0 h1 h2 h3 h4 h5 h6 h7 h8 hver htd hsig
    simp [pathUpdateResignCrlsHandler, h0, h1, h2, h6, h7, h8, hver, htd,
      signTemplate, hsig,
      show ¬ (d ≤ 0) by omega, show ¬ (req.crlNumber < 0) by omega,
      show ¬ (req.deltaCrlBaseNumber < -1) by omega]
  · intro env req m h
    unfold pathUpdateResignCrlsHandler signTemplate at h
    by_cases hleg : env.useLegacyBundleCaStorage = true
    · simp [hleg] at h
    · simp only [hleg, Bool.false_eq_true, if_false, if_neg] at h
      rcases hfmt : getCrlFormat req.format with e | fmt
      · simp [hfmt] at h
      · simp only [hfmt] at h
        rcases hdur : env.parseDuration req.nextUpdateStr with e | d
        · simp [hdur] at h
        · simp only [hdur] at h
          by_cases hd : d ≤ 0
          · simp [hd] at h
          · simp only [if_neg hd] at h
            by_cases hcn : req.crlNumber < 0
            · simp [hcn] at h
            · simp only [if_neg hcn] at h
              by_cases hdelta : req.deltaCrlBaseNumber < -1
              · simp [hdelta] at h
              · simp only [if_neg hdelta] at h
                by_cases hiss : req.issuerRef = ""
                · simp [hiss] at h
                · simp only [if_neg hiss] at h
                  rcases hdec : decodePemCrls env req.rawCrls with crls | e | _
                  · simp only [hdec] at h
                    rcases hca : env.getCaBundle req.issuerRef with e | bundle
                    · simp [hca] at h
                    · simp only [hca] at h
                      rcases hver : verifyCrlsAreFromIssuersKey env.checkSignatureFrom
                          bundle.certificate crls with e | u
                      · simp [hver] at h
                      · simp only [hver] at h
                        rcases htd : templateWithDelta req.deltaCrlBaseNumber
                            env.createDeltaCRLIndicatorExt
                            (buildTemplate bundle.revocationSigAlg
                              (getAllRevokedCerts crls).1 req.crlNumber env.now d)
                          with e | t2
                        · simp only [htd] at h
                          obtain ⟨e0, he0⟩ := templateWithDelta_error htd
                          refine Or.inl ⟨e0, ?_⟩
                          simp only [HandlerResult.internalError.injEq] at h
                          rw [← h]
                          exact he0
                        · simp only [htd] at h
                          rcases hsig : env.createRevocationList t2 bundle with e | bytes
                          · simp only [hsig] at h
                            refine Or.inr ⟨e, ?_⟩
                            simp only [HandlerResult.internalError.injEq] at h
                            exact h.symm
                          · simp [hsig] at h
                  · simp [hdec] at h
                  · simp [hdec] at h

def envDeltaFail : Env := { envW with createDeltaCRLIndicatorExt := fun _ => .error "boom" }

def envSignFail : Env := { envW with createRevocationList := fun _ _ => .error "sig" }

/-- Witness for C7: a failing extension builder and a failing signer each
drive the handler into the internal-error path, and the classifier admits
the signer's message. -/
theorem handler_error_taxonomy_witness :
    pathUpdateResignCrlsHandler envDeltaFail { reqW with deltaCrlBaseNumber := 3 } =
      .internalError (deltaExtErrMsg "boom") ∧
    pathUpdateResignCrlsHandler envSignFail reqW = .internalError (createCrlErrMsg "sig") ∧
    ((∃ e, createCrlErrMsg "sig" = deltaExtErrMsg e) ∨
      (∃ e, createCrlErrMsg "sig" = createCrlErrMsg e)) :=
  ⟨handler_error_taxonomy.1 envDeltaFail { reqW with deltaCrlBaseNumber := 3 }
      "pem" 72 [] bundleW "boom" rfl rfl rfl (by decide) (by decide) (by decide)
      (by decide) rfl rfl rfl (by decide) rfl,
   handler_error_taxonomy.2.1 envSignFail reqW "pem" 72 [] bundleW
      (buildTemplate 4 [] 5 1000 72) "sig" rfl rfl rfl (by decide) (by decide)
      (by decide) (by decide) rfl rfl rfl rfl rfl,
   handler_error_taxonomy.2.2 envSignFail reqW (createCrlErrMsg "sig")
     (handler_error_taxonomy.2.1 envSignFail reqW "pem" 72 [] bundleW
        (buildTemplate 4 [] 5 1000 72) "sig" rfl rfl rfl (by decide) (by decide)
        (by decide) (by decide) rfl rfl rfl rfl rfl)⟩

/-- C10: an otherwise-valid request with an empty `crls` list succeeds:
decoding and verification are vacuous, the reconciled set is empty (the
signed template carries no revoked certificates), and the response carries
the signed CRL with an empty warning list. -/
theorem handler_empty_crls_success (env : Env) (req : ResignRequest)
    (fmt : String) (d : Int) (bundle : CAInfoBundle) (t2 : RevocationList)
    (bytes : List Nat)
    (h0 : env.useLegacyBundleCaStorage = false)
    (hcrls : req.rawCrls = [])
    (h1 : getCrlFormat req.format = .ok fmt)
    (h2 : env.parseDuration req.nextUpdateStr = .ok d)
    (h3 : 0 < d)
    (h4 : 0 ≤ req.crlNumber)
    (h5 : -1 ≤ req.deltaCrlBaseNumber)
    (h6 : ¬ (req.issuerRef = ""))
    (h8 : env.getCaBundle req.issuerRef = .ok bundle)
    (h9 : templateWithDelta req.deltaCrlBaseNumber env.createDeltaCRLIndicatorExt
      (buildTemplate bundle.revocationSigAlg [] req.crlNumber env.now d) = .ok t2)
    (h10 : env.createRevocationList t2 bundle = .ok bytes) :
    pathUpdateResignCrlsHandler env req =
      .success [] (encodeResponse bytes (fmt == "der")) := by
  simp [pathUpdateResignCrlsHandler, h0, h1, h2, hcrls, h6, h8, h9, h10,
    decodePemCrls, decodePemCrlsFrom, verifyCrlsAreFromIssuersKey, verifyCrlsFrom,
    getAllRevokedCerts, mergeCrls, signTemplate,
    show ¬ (d ≤ 0) by omega, show ¬ (req.crlNumber < 0) by omega,
    show ¬ (req.deltaCrlBaseNumber < -1) by omega]

/-- Witness for C10 on the benign environment. -/
theorem handler_empty_crls_success_witness :
    pathUpdateResignCrlsHandler envW reqW =
      .success [] (encodeResponse [1, 2, 3] false) :=
  handler_empty_crls_success envW reqW "pem" 72 bundleW
    (buildTemplate 4 [] 5 1000 72) [1, 2, 3] rfl rfl rfl rfl (by decide) (by decide)
    (by decide) (by decide) rfl rfl rfl

/-! ## Claim theorems: the response encoder -/

theorem b64Index_b64Char : ∀ n, n < 64 → b64Index (b64Char n) = n := by decide

theorem b64Char_ne_pad : ∀ n, n < 64 → ¬ (b64Char n = '=') := by decide

/-- The encoder always emits full four-character groups, as standard
padded base64 does. -/
theorem base64Encode_length_mod_four : ∀ l : List Nat, (base64Encode l).length % 4 = 0
  | [] => by simp [base64Encode]
  | [b1] => by simp [base64Encode]
  | [b1, b2] => by simp [base64Encode]
  | b1 :: b2 :: b3 :: rest => by
      have ih := base64Encode_length_mod_four rest
      simp [base64Encode]
      omega

/-- Standard base64 decoding inverts the encoder on byte inputs: the
encoded text carries exactly the raw bytes. -/
theorem base64_roundtrip : ∀ l : List Nat, (∀ b ∈ l, b < 256) →
    base64Decode (base64Encode l) = l
  | [] => fun _ => rfl
  | [b1] => fun h => by
      have hb1 : b1 < 256 := h b1 (by simp)
      have h1 : b1 / 4 < 64 := by omega
      have h2 : b1 % 4 * 16 < 64 := by omega
      simp [base64Encode, base64Decode, b64Index_b64Char _ h1, b64Index_b64Char _ h2]
      omega
  | [b1, b2] => fun h => by
      have hb1 : b1 < 256 := h b1 (by simp)
      have hb2 : b2 < 256 := h b2 (by simp)
      have h1 : b1 / 4 < 64 := by omega
      have h2 : b1 % 4 * 16 + b2 / 16 < 64 := by omega
      have h3 : b2 % 16 * 4 < 64 := by omega
      simp [base64Encode, base64Decode, b64Index_b64Char _ h1, b64Index_b64Char _ h2,
        b64Index_b64Char _ h3, b64Char_ne_pad _ h3]
      omega
  | b1 :: b2 :: b3 :: rest => fun h => by
      have hb1 : b1 < 256 := h b1 (by simp)
      have hb2 : b2 < 256 := h b2 (by simp)
      have hb3 : b3 < 256 := h b3 (by simp)
      have ih := base64_roundtrip rest (fun b hb => h b (by simp [hb]))
      have h1 : b1 / 4 < 64 := by omega
      have h2 : b1 % 4 * 16 + b2 / 16 < 64 := by omega
      have h3 : b2 % 16 * 4 + b3 / 64 < 64 := by omega
      have h4 : b3 % 64 < 64 := by omega
      simp [base64Encode, base64Decode, b64Index_b64Char _ h1, b64Index_b64Char _ h2,
        b64Index_b64Char _ h3, b64Index_b64Char _ h4, b64Char_ne_pad _ h3,
        b64Char_ne_pad _ h4, ih]
      omega

/-- C9: for DER the response body is exactly the standard padded base64
text of the raw signed bytes (a whole number of four-character groups,
decodable back to exactly the input bytes); otherwise it is exactly one
PEM block of type "X509 CRL" whose payload is the raw bytes. -/
theorem encodeResponse_der_pem (crlBytes : List Nat) :
    encodeResponse crlBytes true = String.mk (base64Encode crlBytes) ∧
    encodeResponse crlBytes false =
      pemEncodeToMemory { blockType := "X509 CRL", bytes := crlBytes } ∧
    (base64Encode crlBytes).length % 4 = 0 ∧
    ((∀ b ∈ crlBytes, b < 256) →
      base64Decode (base64Encode crlBytes) = crlBytes) :=
  ⟨rfl, rfl, base64Encode_length_mod_four crlBytes, base64_roundtrip crlBytes⟩

/-- Witness for C9 on the bytes `[1, 2, 3]`. -/
theorem encodeResponse_der_pem_witness :
    base64Decode (base64Encode [1, 2, 3]) = [1, 2, 3] :=
  (encodeResponse_der_pem [1, 2, 3]).2.2.2 (by decide)

end ResignCrls
